import Mathlib

/-!
Shallow embedding of the authentication and session core of the backend
template repository: the Redis-backed session service
(src/core/services/cloudflareIpService.ts, class SessionService), the
API-key service (src/modules/api-keys/service.ts, class ApiKeyService),
the unified authentication middleware (requireAuth) and the role
authorizer (src/core/http/middleware/rbac.ts).

Modelling conventions:
- second-resolution timestamps are Nat (the code uses
  Math.floor(Date.now() / 1000));
- the Redis store is a pair of association lists: session records keyed
  by token with an absolute store-expiry instant, and per-user token
  sets with an optional absolute expiry (none = persistent key, as for
  a set created by SADD before EXPIRE is applied);
- a key set at instant s with time-to-live ttl is readable while
  now < s + ttl, matching Redis eviction;
- the "sess:" and "user:...:sessions" key namespacing of the source is
  dropped: the two key spaces live in separate fields, so the textual
  decoration carries no information;
- randomness (token generation) is externalized: the fresh token is an
  explicit argument;
- each service method takes the current instant "now" explicitly.
-/

namespace BackendAuth

/-- The UserRole enum of the Prisma schema. -/
inductive Role where
  | ADMIN
  | USER
  | GUEST
deriving DecidableEq, Repr

/-- The configuration constants of the session service
(SESSION_TTL_SECONDS, default 86400, and
SESSION_SLIDING_EXTENSION_SECONDS, default 3600); the env schema
coerces both to positive integers. -/
structure Config where
  sessionTtlSeconds : Nat
  sessionSlidingExtensionSeconds : Nat
deriving Repr

/-- The SessionPayload interface stored as JSON under the session key. -/
structure SessionPayload where
  uid : String
  roles : List Role
  exp : Nat
  createdAt : Nat
  lastUsedAt : Nat
  ip : Option String
  userAgent : Option String
  country : Option String
deriving DecidableEq, Repr

/-- Optional fingerprint metadata passed to createSession. -/
structure ClientMeta where
  ip : Option String
  userAgent : Option String
  country : Option String
deriving DecidableEq, Repr

/-- One stored session record: token, payload, and the absolute instant
at which the Redis key expires (write instant + the TTL given to
SETEX). -/
structure SessEntry where
  token : String
  payload : SessionPayload
  storeExpiry : Nat
deriving DecidableEq, Repr

/-- One per-user session-index set: user id, member tokens, and the
optional absolute expiry of the whole set key. -/
structure IndexEntry where
  userKey : String
  members : List String
  expiry : Option Nat
deriving DecidableEq, Repr

/-- The Redis-resident credential store. -/
structure Store where
  sessions : List SessEntry
  indexes : List IndexEntry
deriving DecidableEq, Repr

def Store.empty : Store := ⟨[], []⟩

/-- Association-list lookup for session records. -/
def lookupSess : List SessEntry → String → Option (SessionPayload × Nat)
  | [], _ => none
  | e :: es, t => if e.token = t then some (e.payload, e.storeExpiry) else lookupSess es t

/-- Remove every session entry with the given token. -/
def eraseSess : List SessEntry → String → List SessEntry
  | [], _ => []
  | e :: es, t => if e.token = t then eraseSess es t else e :: eraseSess es t

/-- Association-list lookup for index sets. -/
def lookupIdx : List IndexEntry → String → Option (List String × Option Nat)
  | [], _ => none
  | e :: es, u => if e.userKey = u then some (e.members, e.expiry) else lookupIdx es u

/-- Remove every index entry with the given user key. -/
def eraseIdx : List IndexEntry → String → List IndexEntry
  | [], _ => []
  | e :: es, u => if e.userKey = u then eraseIdx es u else e :: eraseIdx es u

/-- Remove every occurrence of a token from a member list. -/
def eraseTok : List String → String → List String
  | [], _ => []
  | m :: ms, t => if m = t then eraseTok ms t else m :: eraseTok ms t

/-- Whether a set key with the given optional absolute expiry is still
live at instant now (a persistent key is always live). -/
def idxLive (now : Nat) : Option Nat → Bool
  | none => true
  | some e => decide (now < e)

/-- redis.get on a session key: the value is visible only while the key
TTL has not elapsed. -/
def redisGet (st : Store) (now : Nat) (t : String) : Option SessionPayload :=
  match lookupSess st.sessions t with
  | some (p, e) => if now < e then some p else none
  | none => none

/-- redis.setEx on a session key: store the payload with absolute expiry
now + ttl, replacing any previous entry for the token. -/
def redisSetEx (st : Store) (now ttl : Nat) (t : String) (p : SessionPayload) : Store :=
  { st with sessions := ⟨t, p, now + ttl⟩ :: eraseSess st.sessions t }

/-- redis.del on a session key. -/
def redisDelSess (st : Store) (t : String) : Store :=
  { st with sessions := eraseSess st.sessions t }

/-- redis.sMembers on a user index key: the members if the set key is
live, otherwise the empty list (an expired key reads as absent). -/
def sMembers (st : Store) (now : Nat) (u : String) : List String :=
  match lookupIdx st.indexes u with
  | some (ms, e) => if idxLive now e then ms else []
  | none => []

/-- redis.sAdd on a user index key: add the member to the live set
(no-op if already present, TTL untouched); if the key is absent or
expired, create a fresh persistent set holding just this member. -/
def sAdd (st : Store) (now : Nat) (u tok : String) : Store :=
  match lookupIdx st.indexes u with
  | some (ms, e) =>
    if idxLive now e then
      if tok ∈ ms then st
      else { st with indexes := ⟨u, tok :: ms, e⟩ :: eraseIdx st.indexes u }
    else { st with indexes := ⟨u, [tok], none⟩ :: eraseIdx st.indexes u }
  | none => { st with indexes := ⟨u, [tok], none⟩ :: eraseIdx st.indexes u }

/-- redis.expire on a user index key: reset the TTL of a live key;
no-op on an absent or expired key. -/
def redisExpire (st : Store) (now ttl : Nat) (u : String) : Store :=
  match lookupIdx st.indexes u with
  | some (ms, e) =>
    if idxLive now e then
      { st with indexes := ⟨u, ms, some (now + ttl)⟩ :: eraseIdx st.indexes u }
    else st
  | none => st

/-- redis.sRem on a user index key: remove the member from a live set. -/
def sRem (st : Store) (now : Nat) (u tok : String) : Store :=
  match lookupIdx st.indexes u with
  | some (ms, e) =>
    if idxLive now e then
      { st with indexes := ⟨u, eraseTok ms tok, e⟩ :: eraseIdx st.indexes u }
    else st
  | none => st

/-- redis.del on a user index key. -/
def redisDelIdx (st : Store) (u : String) : Store :=
  { st with indexes := eraseIdx st.indexes u }

/-- SessionService.createSession, happy path: build the payload with
createdAt = lastUsedAt = now and exp = now + TTL, SETEX the record with
the TTL, SADD the token to the user index, then EXPIRE the index with
the same TTL. The fresh random token is the tokenId argument.
newPayload is the payload literal built inside createSession. -/
def newPayload (cfg : Config) (now : Nat) (userId : String) (roles : List Role)
    (md : ClientMeta) : SessionPayload :=
  { uid := userId
    roles := roles
    exp := now + cfg.sessionTtlSeconds
    createdAt := now
    lastUsedAt := now
    ip := md.ip
    userAgent := md.userAgent
    country := md.country }

def createSession (cfg : Config) (st : Store) (now : Nat) (tokenId userId : String)
    (roles : List Role) (md : ClientMeta) : Store :=
  let p := newPayload cfg now userId roles md
  let st1 := redisSetEx st now cfg.sessionTtlSeconds tokenId p
  let st2 := sAdd st1 now userId tokenId
  redisExpire st2 now cfg.sessionTtlSeconds userId

/-- SessionService.deleteSession: read the record to find the owner and
SREM the token from the owner index if the record is still readable,
then DEL the session key. -/
def deleteSession (st : Store) (now : Nat) (tokenId : String) : Store :=
  let st1 :=
    match redisGet st now tokenId with
    | some p => sRem st now p.uid tokenId
    | none => st
  redisDelSess st1 tokenId

/-- SessionService.getSession: read the record; absent gives none; a
record whose exp is at or before now is deleted and gives none; a valid
record whose lastUsedAt is at least the sliding threshold in the past
is renewed (lastUsedAt = now, exp = now + TTL) and rewritten with the
full TTL; otherwise it is returned unchanged. Returns the payload
result together with the possibly updated store. -/
def getSession (cfg : Config) (st : Store) (now : Nat) (tokenId : String) :
    Option SessionPayload × Store :=
  match redisGet st now tokenId with
  | none => (none, st)
  | some p =>
    if p.exp ≤ now then
      (none, deleteSession st now tokenId)
    else if cfg.sessionSlidingExtensionSeconds ≤ now - p.lastUsedAt then
      let p' := { p with lastUsedAt := now, exp := now + cfg.sessionTtlSeconds }
      (some p', redisSetEx st now cfg.sessionTtlSeconds tokenId p')
    else
      (some p, st)

/-- SessionService.deleteAllUserSessions: read the index members; when
nonempty, DEL every corresponding session key and then DEL the index
key; when empty, do nothing. -/
def deleteAllUserSessions (st : Store) (now : Nat) (userId : String) : Store :=
  let toks := sMembers st now userId
  if toks = [] then st
  else redisDelIdx (toks.foldl (fun s t => redisDelSess s t) st) userId

/-- The SessionMetadata shape returned by listUserSessions (timestamps
kept in seconds rather than converted to Date). -/
structure SessionMetadata where
  tokenId : String
  tokenIdHash : String
  createdAt : Nat
  lastUsedAt : Nat
  ip : Option String
  userAgent : Option String
  country : Option String
deriving DecidableEq, Repr

/-- Build the listing entry for one token and payload. -/
def mkMeta (tokenId : String) (p : SessionPayload) : SessionMetadata :=
  { tokenId := tokenId
    tokenIdHash := tokenId.take 8 ++ "..."
    createdAt := p.createdAt
    lastUsedAt := p.lastUsedAt
    ip := p.ip
    userAgent := p.userAgent
    country := p.country }

/-- Insert into a list sorted by lastUsedAt descending. -/
def insertByLastUsedDesc (m : SessionMetadata) : List SessionMetadata → List SessionMetadata
  | [] => [m]
  | x :: xs =>
    if x.lastUsedAt ≤ m.lastUsedAt then m :: x :: xs
    else x :: insertByLastUsedDesc m xs

/-- Sort by lastUsedAt descending (the source sorts with
b.lastUsedAt - a.lastUsedAt). -/
def sortByLastUsedDesc (l : List SessionMetadata) : List SessionMetadata :=
  l.foldr insertByLastUsedDesc []

/-- SessionService.listUserSessions: enumerate the live index members,
fetch each record, silently skip tokens whose record is gone, and sort
the survivors by lastUsedAt descending. -/
def listUserSessions (st : Store) (now : Nat) (userId : String) : List SessionMetadata :=
  let toks := sMembers st now userId
  sortByLastUsedDesc (toks.filterMap (fun t => (redisGet st now t).map (mkMeta t)))

/-!
API-key service (src/modules/api-keys/service.ts). The SHA-256 hash of
the source (hashApiKey, from node crypto) is abstracted as an explicit
function argument of type String to String: the verification facts
about the service depend only on the hash being a deterministic
function, plus — for the mutation-rejection property — injectivity on
the strings involved, which stands in for collision resistance.
-/

/-- A user row as selected by the service (id, email, name, roles,
isActive). -/
structure UserRec where
  id : String
  email : String
  name : Option String
  roles : List Role
  isActive : Bool
deriving DecidableEq, Repr

/-- An ApiKey row of the relational store. -/
structure ApiKeyRecord where
  id : String
  userId : String
  name : Option String
  keyHash : String
  createdAt : Nat
  lastUsedAt : Option Nat
  expiresAt : Option Nat
deriving DecidableEq, Repr

/-- The relational database visible to the API-key service: the users
table and the api-key table. -/
structure Db where
  users : List UserRec
  apiKeys : List ApiKeyRecord
deriving DecidableEq, Repr

/-- prisma.user.findUnique by id. -/
def findUser : List UserRec → String → Option UserRec
  | [], _ => none
  | u :: us, i => if u.id = i then some u else findUser us i

/-- Lowercase ASCII letter test, the character class of the key format
regex group. -/
def isLowerAlpha (c : Char) : Bool :=
  decide (97 ≤ c.toNat) && decide (c.toNat ≤ 122)

/-- Lowercase hex digit test, the character class of the 128-character
key body. -/
def isHexLower (c : Char) : Bool :=
  (decide (48 ≤ c.toNat) && decide (c.toNat ≤ 57)) ||
  (decide (97 ≤ c.toNat) && decide (c.toNat ≤ 102))

/-- The API key format check on a character list: either exactly 128
lowercase hex characters, or a 1..12 character lowercase alphabetic
part, one underscore, then exactly 128 lowercase hex characters. This
is an exact functional rendering of the anchored regex of the source
(API_KEY_REGEX): the alphabetic group cannot contain an underscore, so
splitting at the first underscore is the only possible parse. -/
def formatOkChars (cs : List Char) : Bool :=
  if cs.contains '_' then
    let p := cs.takeWhile (fun c => c ≠ '_')
    let b := (cs.dropWhile (fun c => c ≠ '_')).drop 1
    decide (1 ≤ p.length) && decide (p.length ≤ 12) && p.all isLowerAlpha &&
      (b.length == 128) && b.all isHexLower
  else
    (cs.length == 128) && cs.all isHexLower

/-- ApiKeyService.validateApiKeyFormat on a String. -/
def validateApiKeyFormat (s : String) : Bool :=
  formatOkChars s.data

/-- Value of one hex digit; 16 marks a character outside the hex
alphabet (Buffer.from with hex encoding stops at the first invalid
digit). -/
def hexDigitVal (c : Char) : Nat :=
  if 48 ≤ c.toNat ∧ c.toNat ≤ 57 then c.toNat - 48
  else if 97 ≤ c.toNat ∧ c.toNat ≤ 102 then c.toNat - 87
  else if 65 ≤ c.toNat ∧ c.toNat ≤ 70 then c.toNat - 55
  else 16

/-- Buffer.from(s, hex): decode pairs of hex digits into bytes,
stopping at the first invalid digit or dangling nibble. -/
def hexDecode : List Char → List Nat
  | c1 :: c2 :: cs =>
    if hexDigitVal c1 < 16 && hexDigitVal c2 < 16 then
      (hexDigitVal c1 * 16 + hexDigitVal c2) :: hexDecode cs
    else []
  | _ => []

/-- ApiKeyService.constantTimeCompare: false on unequal lengths,
otherwise timingSafeEqual of the two hex decodings. -/
def constantTimeCompare (a b : String) : Bool :=
  if a.length ≠ b.length then false
  else hexDecode a.data == hexDecode b.data

/-- ApiKeyService.extractUsername: the part of the email before the
first at sign (split at-sign, first component), lowercased, stripped to
ASCII letters a-z, truncated to 12 characters. -/
def extractUsername (email : String) : String :=
  let username := (email.data.takeWhile (fun c => c ≠ '@')).map Char.toLower
  String.mk ((username.filter isLowerAlpha).take 12)

/-- ApiKeyService.generateApiKey given the externally supplied random
128-hex body: prepend the username and an underscore when the username
is nonempty. -/
def generateApiKey (username : String) (body : String) : String :=
  if 0 < username.length then username ++ "_" ++ body else body

/-- Outcome of createApiKey: the created record, the plaintext returned
exactly once, and the new database. -/
structure CreateKeyOk where
  record : ApiKeyRecord
  plaintext : String
  db : Db
deriving DecidableEq, Repr

/-- ApiKeyService.createApiKey: look up the owner (User not found when
absent, User account is disabled when inactive), derive the username
from the email, build the plaintext from the random body, store only
hash(plaintext) plus metadata. The random body and the fresh row id are
explicit arguments. -/
def createApiKey (hash : String → String) (db : Db) (now : Nat) (userId : String)
    (name : Option String) (expiresAt : Option Nat) (body newId : String) :
    Except String CreateKeyOk :=
  match findUser db.users userId with
  | none => .error "User not found"
  | some u =>
    if !u.isActive then .error "User account is disabled"
    else
      let username := extractUsername u.email
      let plaintext := generateApiKey username body
      let record : ApiKeyRecord :=
        { id := newId
          userId := userId
          name := name
          keyHash := hash plaintext
          createdAt := now
          lastUsedAt := none
          expiresAt := expiresAt }
      .ok { record := record, plaintext := plaintext,
            db := { db with apiKeys := db.apiKeys ++ [record] } }

/-- The where-clause of the validateApiKey lookup: hash equality joined
to an active owning user (prisma findFirst with user.isActive true). -/
def keyLookupMatch (users : List UserRec) (h : String) (r : ApiKeyRecord) : Bool :=
  r.keyHash == h &&
    (match findUser users r.userId with
     | some u => u.isActive
     | none => false)

/-- prisma.apiKey.findFirst over the key table in storage order. -/
def findFirstKey (users : List UserRec) (h : String) :
    List ApiKeyRecord → Option ApiKeyRecord
  | [] => none
  | r :: rs => if keyLookupMatch users h r then some r else findFirstKey users h rs

/-- ApiKeyService.validateApiKey: format check, hash, lookup by hash
joined to an active user, expiry check (expiresAt at or before now is
rejected), then the defensive constant-time hash comparison; every
failure path returns none, success returns the record together with the
included user. -/
def validateApiKey (hash : String → String) (db : Db) (now : Nat) (apiKey : String) :
    Option (ApiKeyRecord × UserRec) :=
  if !validateApiKeyFormat apiKey then none
  else
    let keyHash := hash apiKey
    match findFirstKey db.users keyHash db.apiKeys with
    | none => none
    | some r =>
      let expired := match r.expiresAt with
        | some e => decide (e ≤ now)
        | none => false
      if expired then none
      else if !constantTimeCompare keyHash r.keyHash then none
      else
        match findUser db.users r.userId with
        | some u => some (r, u)
        | none => none

/-- ApiKeyService.updateLastUsed, with an explicit store-failure flag:
the prisma update is wrapped in try/catch and the catch block only
logs, so both branches return normally (never an error). -/
def updateLastUsed (db : Db) (apiKeyId : String) (now : Nat) (storeFails : Bool) :
    Except String Db :=
  if storeFails then .ok db
  else
    let bump := fun (r : ApiKeyRecord) =>
      if r.id = apiKeyId then { r with lastUsedAt := some now } else r
    .ok { db with apiKeys := db.apiKeys.map bump }

/-- SessionService.createSession with an explicit store-failure flag:
any redis failure inside the try block reaches the catch block, which
rethrows Error with message Session creation failed; otherwise the
happy-path store results. -/
def createSessionE (cfg : Config) (st : Store) (now : Nat) (tokenId userId : String)
    (roles : List Role) (md : ClientMeta) (storeFails : Bool) : Except String Store :=
  if storeFails then .error "Session creation failed"
  else .ok (createSession cfg st now tokenId userId roles md)

/-!
Unified authentication middleware (requireAuth of the auth middleware
module) and the role authorizer (rbac.ts). The middleware is modelled
as a pure function from the request credentials and the two stores to
an outcome, the resulting session store, whether the non-blocking
updateLastUsed bookkeeping write was launched, and whether the session
cookie was cleared on the response.
-/

/-- The error codes the middleware can answer with. -/
inductive ErrCode where
  | INVALID_TOKEN
  | AUTHENTICATION_REQUIRED
  | USER_INACTIVE
  | INTERNAL_ERROR
deriving DecidableEq, Repr

/-- Middleware outcome: either the request proceeds with an attached
principal (viaApiKey marks which credential path authenticated it), or
it terminates with an error response. -/
inductive AuthOutcome where
  | success (user : UserRec) (viaApiKey : Bool)
  | failure (code : ErrCode)
deriving DecidableEq, Repr

/-- The credentials of one inbound request: the Authorization header
and the session cookie, each possibly absent. -/
structure AuthReq where
  authHeader : Option String
  sessionCookie : Option String
deriving DecidableEq, Repr

/-- The full observable effect of one requireAuth invocation. -/
structure AuthResult where
  outcome : AuthOutcome
  store : Store
  lastUsedBumped : Bool
  cookieCleared : Bool
deriving DecidableEq, Repr

/-- requireAuth: if the Authorization header is present and starts with
the literal Bearer prefix, strip the first seven characters and attempt
API-key validation only — success attaches the key owner and launches
the non-blocking updateLastUsed, failure ends with INVALID_TOKEN.
Otherwise fall back to the session cookie: absent cookie ends with
AUTHENTICATION_REQUIRED; getSession none clears the cookie and ends
with INVALID_TOKEN; a session whose user no longer exists deletes the
orphaned session and ends with AUTHENTICATION_REQUIRED; an inactive
user ends with USER_INACTIVE; otherwise the freshly resolved user is
attached. -/
def requireAuth (hash : String → String) (cfg : Config) (db : Db) (st : Store)
    (now : Nat) (req : AuthReq) : AuthResult :=
  let bearer : Option String :=
    match req.authHeader with
    | some h =>
      if List.isPrefixOf "Bearer ".data h.data then some (String.mk (h.data.drop 7))
      else none
    | none => none
  match bearer with
  | some apiKey =>
    match validateApiKey hash db now apiKey with
    | some (_, u) =>
      { outcome := .success u true, store := st, lastUsedBumped := true,
        cookieCleared := false }
    | none =>
      { outcome := .failure .INVALID_TOKEN, store := st, lastUsedBumped := false,
        cookieCleared := false }
  | none =>
    match req.sessionCookie with
    | none =>
      { outcome := .failure .AUTHENTICATION_REQUIRED, store := st,
        lastUsedBumped := false, cookieCleared := false }
    | some tok =>
      match getSession cfg st now tok with
      | (none, st1) =>
        { outcome := .failure .INVALID_TOKEN, store := st1, lastUsedBumped := false,
          cookieCleared := true }
      | (some sess, st1) =>
        match findUser db.users sess.uid with
        | none =>
          { outcome := .failure .AUTHENTICATION_REQUIRED,
            store := deleteSession st1 now tok, lastUsedBumped := false,
            cookieCleared := false }
        | some u =>
          if !u.isActive then
            { outcome := .failure .USER_INACTIVE, store := st1,
              lastUsedBumped := false, cookieCleared := false }
          else
            { outcome := .success u false, store := st1, lastUsedBumped := false,
              cookieCleared := false }

/-- The fixed ROLE_HIERARCHY table of rbac.ts. -/
def ROLE_HIERARCHY : Role → List Role
  | .ADMIN => [.ADMIN, .USER, .GUEST]
  | .USER => [.USER, .GUEST]
  | .GUEST => [.GUEST]

/-- hasRolePermission of rbac.ts: direct membership when hierarchical
checking is opted out, otherwise membership of the required role in the
expansion of any of the principal roles. -/
def hasRolePermission (userRoles : List Role) (requiredRole : Role)
    (hierarchical : Bool) : Bool :=
  if !hierarchical then userRoles.contains requiredRole
  else userRoles.any (fun userRole => (ROLE_HIERARCHY userRole).contains requiredRole)

/-- The role gate inside requireRoles of rbac.ts: some allowed role is
reachable from the principal roles (hierarchically by default, direct
membership when opted out). -/
def checkRequiredRoles (allowedRoles userRoles : List Role) (hierarchical : Bool) : Bool :=
  allowedRoles.any (fun requiredRole =>
    if hierarchical then
      userRoles.any (fun userRole => (ROLE_HIERARCHY userRole).contains requiredRole)
    else userRoles.contains requiredRole)

/-!
Helper lemmas about the store primitives.
-/

theorem lookupSess_eraseSess (l : List SessEntry) (t : String) :
    lookupSess (eraseSess l t) t = none := by
  induction l with
  | nil => rfl
  | cons e es ih =>
    by_cases h : e.token = t <;> simp [eraseSess, h, lookupSess, ih]

theorem mem_eraseSess {e : SessEntry} {l : List SessEntry} {t : String}
    (h : e ∈ eraseSess l t) : e ∈ l := by
  induction l with
  | nil => simp [eraseSess] at h
  | cons x xs ih =>
    by_cases hx : x.token = t
    · simp only [eraseSess, if_pos hx] at h
      exact List.mem_cons_of_mem _ (ih h)
    · simp only [eraseSess, if_neg hx, List.mem_cons] at h
      rcases h with h | h
      · exact h ▸ List.mem_cons_self _ _
      · exact List.mem_cons_of_mem _ (ih h)

theorem lookupSess_mem {l : List SessEntry} {t : String} {p : SessionPayload} {x : Nat}
    (h : lookupSess l t = some (p, x)) : (⟨t, p, x⟩ : SessEntry) ∈ l := by
  induction l with
  | nil => simp [lookupSess] at h
  | cons e es ih =>
    by_cases he : e.token = t
    · simp only [lookupSess, if_pos he] at h
      obtain ⟨hp, hx⟩ := Prod.mk.injEq .. ▸ Option.some.injEq .. ▸ h
      cases e
      simp_all
    · simp only [lookupSess, if_neg he] at h
      exact List.mem_cons_of_mem _ (ih h)

theorem redisGet_some {st : Store} {now : Nat} {t : String} {p : SessionPayload}
    (h : redisGet st now t = some p) :
    ∃ x, lookupSess st.sessions t = some (p, x) ∧ now < x := by
  unfold redisGet at h
  cases hl : lookupSess st.sessions t with
  | none => simp [hl] at h
  | some pe =>
    obtain ⟨q, x⟩ := pe
    rw [hl] at h
    by_cases hx : now < x
    · simp only [if_pos hx, Option.some.injEq] at h
      exact ⟨x, by simp [hl, h], hx⟩
    · simp [if_neg hx] at h

theorem sessions_sAdd (st : Store) (now : Nat) (u tok : String) :
    (sAdd st now u tok).sessions = st.sessions := by
  unfold sAdd
  cases lookupIdx st.indexes u with
  | none => rfl
  | some pe => obtain ⟨ms, e⟩ := pe; dsimp; split_ifs <;> rfl

theorem sessions_redisExpire (st : Store) (now ttl : Nat) (u : String) :
    (redisExpire st now ttl u).sessions = st.sessions := by
  unfold redisExpire
  cases lookupIdx st.indexes u with
  | none => rfl
  | some pe => obtain ⟨ms, e⟩ := pe; dsimp; split_ifs <;> rfl

theorem sessions_sRem (st : Store) (now : Nat) (u tok : String) :
    (sRem st now u tok).sessions = st.sessions := by
  unfold sRem
  cases lookupIdx st.indexes u with
  | none => rfl
  | some pe => obtain ⟨ms, e⟩ := pe; dsimp; split_ifs <;> rfl

theorem indexes_redisSetEx (st : Store) (now ttl : Nat) (t : String) (p : SessionPayload) :
    (redisSetEx st now ttl t p).indexes = st.indexes := rfl

theorem indexes_redisDelSess (st : Store) (t : String) :
    (redisDelSess st t).indexes = st.indexes := rfl

theorem sessions_deleteSession (st : Store) (now : Nat) (tok : String) :
    (deleteSession st now tok).sessions = eraseSess st.sessions tok := by
  unfold deleteSession redisDelSess
  cases redisGet st now tok with
  | none => rfl
  | some p => simp [sessions_sRem]

theorem sessions_createSession (cfg : Config) (st : Store) (now : Nat)
    (tokenId userId : String) (roles : List Role) (md : ClientMeta) :
    (createSession cfg st now tokenId userId roles md).sessions =
      ⟨tokenId, newPayload cfg now userId roles md, now + cfg.sessionTtlSeconds⟩ ::
        eraseSess st.sessions tokenId := by
  unfold createSession
  simp [sessions_redisExpire, sessions_sAdd, redisSetEx]

theorem sessions_foldl_delSess (toks : List String) (st : Store) {e : SessEntry}
    (h : e ∈ (toks.foldl (fun s t => redisDelSess s t) st).sessions) : e ∈ st.sessions := by
  induction toks generalizing st with
  | nil => simp only [List.foldl_nil] at h; exact h
  | cons t ts ih =>
    simp only [List.foldl_cons] at h
    exact mem_eraseSess (ih _ h)

theorem indexes_foldl_delSess (toks : List String) (st : Store) :
    (toks.foldl (fun s t => redisDelSess s t) st).indexes = st.indexes := by
  induction toks generalizing st with
  | nil => rfl
  | cons t ts ih => simp only [List.foldl_cons]; rw [ih]; rfl

theorem lookupIdx_eraseIdx (l : List IndexEntry) (u : String) :
    lookupIdx (eraseIdx l u) u = none := by
  induction l with
  | nil => rfl
  | cons e es ih =>
    by_cases h : e.userKey = u <;> simp [eraseIdx, h, lookupIdx, ih]

theorem mem_insertByLastUsedDesc {m x : SessionMetadata} {l : List SessionMetadata} :
    m ∈ insertByLastUsedDesc x l ↔ m = x ∨ m ∈ l := by
  induction l with
  | nil => simp [insertByLastUsedDesc]
  | cons y ys ih =>
    unfold insertByLastUsedDesc
    split_ifs with h
    · simp [List.mem_cons]
    · simp only [List.mem_cons, ih]
      tauto

theorem mem_sortByLastUsedDesc {m : SessionMetadata} {l : List SessionMetadata} :
    m ∈ sortByLastUsedDesc l ↔ m ∈ l := by
  induction l with
  | nil => simp [sortByLastUsedDesc]
  | cons x xs ih =>
    simp only [sortByLastUsedDesc, List.foldr_cons] at *
    rw [mem_insertByLastUsedDesc, ih, List.mem_cons]

/-!
Helper lemmas about the API-key service.
-/

theorem findUser_id {us : List UserRec} {i : String} {u : UserRec}
    (h : findUser us i = some u) : u.id = i := by
  induction us with
  | nil => simp [findUser] at h
  | cons x xs ih =>
    by_cases hx : x.id = i
    · simp only [findUser, if_pos hx, Option.some.injEq] at h
      rw [← h]; exact hx
    · simp only [findUser, if_neg hx] at h
      exact ih h

theorem findFirstKey_none_of {users : List UserRec} {h : String} {ks : List ApiKeyRecord}
    (hall : ∀ r ∈ ks, keyLookupMatch users h r = false) :
    findFirstKey users h ks = none := by
  induction ks with
  | nil => rfl
  | cons r rs ih =>
    simp only [findFirstKey, hall r (List.mem_cons_self r rs)]
    exact ih (fun x hx => hall x (List.mem_cons_of_mem _ hx))

theorem findFirstKey_some {users : List UserRec} {h : String} {ks : List ApiKeyRecord}
    {r : ApiKeyRecord} (hf : findFirstKey users h ks = some r) :
    r ∈ ks ∧ keyLookupMatch users h r = true := by
  induction ks with
  | nil => simp [findFirstKey] at hf
  | cons x xs ih =>
    by_cases hx : keyLookupMatch users h x = true
    · simp only [findFirstKey, hx, if_true, Option.some.injEq] at hf
      exact ⟨hf ▸ List.mem_cons_self _ _, hf ▸ hx⟩
    · simp only [findFirstKey, hx, if_false] at hf
      obtain ⟨hm, hk⟩ := ih hf
      exact ⟨List.mem_cons_of_mem _ hm, hk⟩

theorem keyLookupMatch_true {users : List UserRec} {h : String} {r : ApiKeyRecord}
    (hk : keyLookupMatch users h r = true) :
    r.keyHash = h ∧ ∃ u, findUser users r.userId = some u ∧ u.isActive = true := by
  unfold keyLookupMatch at hk
  rw [Bool.and_eq_true] at hk
  obtain ⟨h1, h2⟩ := hk
  refine ⟨by simpa using h1, ?_⟩
  cases hu : findUser users r.userId with
  | none => rw [hu] at h2; exact absurd h2 (by simp)
  | some u => rw [hu] at h2; exact ⟨u, rfl, h2⟩

theorem constantTimeCompare_self (a : String) : constantTimeCompare a a = true := by
  simp [constantTimeCompare]

/-- C8: updateLastUsed never propagates a failure (its prisma update is
wrapped in try/catch whose catch only logs, so both the failing and the
succeeding execution return normally), while createSession rethrows a
hard Error with message Session creation failed when the credential
store write fails. -/
theorem claim_C8 :
    (∀ (db : Db) (apiKeyId : String) (now : Nat) (storeFails : Bool),
       ∃ db2, updateLastUsed db apiKeyId now storeFails = Except.ok db2) ∧
    (∀ (cfg : Config) (st : Store) (now : Nat) (tokenId userId : String)
       (roles : List Role) (md : ClientMeta),
       createSessionE cfg st now tokenId userId roles md true =
         Except.error "Session creation failed") := by
  constructor
  · intro db k n f
    cases f
    · exact ⟨_, rfl⟩
    · exact ⟨db, rfl⟩
  · intro cfg st now t u r m
    rfl

/-- C6: the fixed role hierarchy table is ADMIN to all three roles,
USER to USER and GUEST, GUEST to itself; hierarchically a principal
holding ADMIN passes any check whose allowed set requires USER or
GUEST, a principal holding exactly GUEST fails a check requiring ADMIN,
and with hierarchical checking opted out access is granted exactly when
the principal roles intersect the allowed set directly. -/
theorem claim_C6 :
    (ROLE_HIERARCHY .ADMIN = [.ADMIN, .USER, .GUEST] ∧
     ROLE_HIERARCHY .USER = [.USER, .GUEST] ∧
     ROLE_HIERARCHY .GUEST = [.GUEST]) ∧
    (∀ (userRoles allowedRoles : List Role), Role.ADMIN ∈ userRoles →
       (Role.USER ∈ allowedRoles ∨ Role.GUEST ∈ allowedRoles) →
       checkRequiredRoles allowedRoles userRoles true = true ∧
       hasRolePermission userRoles Role.USER true = true ∧
       hasRolePermission userRoles Role.GUEST true = true) ∧
    (hasRolePermission [Role.GUEST] Role.ADMIN true = false ∧
     checkRequiredRoles [Role.ADMIN] [Role.GUEST] true = false) ∧
    (∀ (userRoles allowedRoles : List Role),
       checkRequiredRoles allowedRoles userRoles false = true ↔
         ∃ r, r ∈ allowedRoles ∧ r ∈ userRoles) := by
  refine ⟨⟨rfl, rfl, rfl⟩, ?_, by decide, ?_⟩
  · intro ur al hA hreq
    refine ⟨?_, ?_, ?_⟩
    · simp only [checkRequiredRoles, List.any_eq_true, if_true]
      rcases hreq with hreq | hreq
      · exact ⟨Role.USER, hreq, Role.ADMIN, hA, by decide⟩
      · exact ⟨Role.GUEST, hreq, Role.ADMIN, hA, by decide⟩
    · simp only [hasRolePermission, Bool.not_true, Bool.false_eq_true, if_false,
        List.any_eq_true]
      exact ⟨Role.ADMIN, hA, by decide⟩
    · simp only [hasRolePermission, Bool.not_true, Bool.false_eq_true, if_false,
        List.any_eq_true]
      exact ⟨Role.ADMIN, hA, by decide⟩
  · intro ur al
    simp only [checkRequiredRoles, List.any_eq_true, if_false, Bool.if_false_left]
    constructor
    · rintro ⟨r, hr, hc⟩
      exact ⟨r, hr, by simpa using hc⟩
    · rintro ⟨r, hr, hc⟩
      exact ⟨r, hr, by simpa using hc⟩

/-- Closed instances discharging the hypotheses of claim_C6: a
principal holding ADMIN passes a check allowing USER, and the
non-hierarchical gate is exactly direct intersection on a concrete
pair of role sets. -/
theorem claim_C6_witness :
    checkRequiredRoles [Role.USER] [Role.ADMIN] true = true ∧
    (checkRequiredRoles [Role.GUEST] [Role.USER, Role.GUEST] false = true ↔
       ∃ r, r ∈ [Role.GUEST] ∧ r ∈ [Role.USER, Role.GUEST]) :=
  ⟨(claim_C6.2.1 [Role.ADMIN] [Role.USER] (by decide) (Or.inl (by decide))).1,
   claim_C6.2.2.2 [Role.USER, Role.GUEST] [Role.GUEST]⟩

/-- C10: an Authorization header that does not begin with the literal
Bearer prefix is treated as no bearer credential: with no session
cookie the middleware ends with AUTHENTICATION_REQUIRED, and in general
the request behaves exactly as if the header were absent. -/
theorem claim_C10 (hash : String → String) (cfg : Config) (db : Db) (st : Store)
    (now : Nat) (h : String)
    (hb : List.isPrefixOf "Bearer ".data h.data = false) :
    (requireAuth hash cfg db st now ⟨some h, none⟩).outcome =
      AuthOutcome.failure ErrCode.AUTHENTICATION_REQUIRED ∧
    ∀ cookie, requireAuth hash cfg db st now ⟨some h, cookie⟩ =
      requireAuth hash cfg db st now ⟨none, cookie⟩ := by
  constructor
  · simp [requireAuth, hb]
  · intro c
    simp [requireAuth, hb]

/-- Closed instance for claim_C10: a Basic credential with no cookie is
answered with AUTHENTICATION_REQUIRED. -/
theorem claim_C10_witness :
    (requireAuth (fun s => s) ⟨86400, 3600⟩ ⟨[], []⟩ Store.empty 0
        ⟨some "Basic abc", none⟩).outcome =
      AuthOutcome.failure ErrCode.AUTHENTICATION_REQUIRED :=
  (claim_C10 (fun s => s) ⟨86400, 3600⟩ ⟨[], []⟩ Store.empty 0 "Basic abc" (by decide)).1

/-- C4: with a Bearer header the middleware attempts API-key validation
only: the session store is left untouched, the result does not depend
on the session cookie at all, validation success attaches the key owner
as principal and launches the non-blocking updateLastUsed, and
validation failure terminates with INVALID_TOKEN without any session
fallback. -/
theorem claim_C4 (hash : String → String) (cfg : Config) (db : Db) (st : Store)
    (now : Nat) (h : String) (cookie : Option String)
    (hb : List.isPrefixOf "Bearer ".data h.data = true) :
    (requireAuth hash cfg db st now ⟨some h, cookie⟩).store = st ∧
    (∀ c2, requireAuth hash cfg db st now ⟨some h, c2⟩ =
       requireAuth hash cfg db st now ⟨some h, cookie⟩) ∧
    (∀ r u, validateApiKey hash db now (String.mk (h.data.drop 7)) = some (r, u) →
       (requireAuth hash cfg db st now ⟨some h, cookie⟩).outcome =
         AuthOutcome.success u true ∧
       (requireAuth hash cfg db st now ⟨some h, cookie⟩).lastUsedBumped = true) ∧
    (validateApiKey hash db now (String.mk (h.data.drop 7)) = none →
       (requireAuth hash cfg db st now ⟨some h, cookie⟩).outcome =
         AuthOutcome.failure ErrCode.INVALID_TOKEN ∧
       (requireAuth hash cfg db st now ⟨some h, cookie⟩).lastUsedBumped = false) := by
  refine ⟨?_, ?_, ?_, ?_⟩
  · cases hv : validateApiKey hash db now (String.mk (h.data.drop 7)) with
    | none => simp [requireAuth, hb, hv]
    | some ru => obtain ⟨r, u⟩ := ru; simp [requireAuth, hb, hv]
  · intro c2
    simp [requireAuth, hb]
  · intro r u hv
    simp [requireAuth, hb, hv]
  · intro hv
    simp [requireAuth, hb, hv]

/-- C5: validateApiKey answers with the single value none on every
failure — malformed format, no record with the matching hash, all
hash-matching records owned by inactive (or missing) users, and an
expiresAt at or before now even when format and hash lookup succeed —
so the failure cases are indistinguishable to the caller; a some answer
always carries the uniform record-plus-active-user shape with the
expiry strictly in the future. -/
theorem claim_C5 (hash : String → String) (db : Db) (now : Nat) (key : String) :
    (validateApiKeyFormat key = false → validateApiKey hash db now key = none) ∧
    ((∀ r, r ∈ db.apiKeys → r.keyHash ≠ hash key) →
       validateApiKey hash db now key = none) ∧
    ((∀ r, r ∈ db.apiKeys → r.keyHash = hash key →
        ∀ u, findUser db.users r.userId = some u → u.isActive = false) →
      validateApiKey hash db now key = none) ∧
    (∀ r, findFirstKey db.users (hash key) db.apiKeys = some r →
       ∀ e, r.expiresAt = some e → e ≤ now →
       validateApiKey hash db now key = none) ∧
    (∀ r u, validateApiKey hash db now key = some (r, u) →
       validateApiKeyFormat key = true ∧ r ∈ db.apiKeys ∧ r.keyHash = hash key ∧
       findUser db.users r.userId = some u ∧ u.isActive = true ∧
       ∀ e, r.expiresAt = some e → now < e) := by
  refine ⟨?_, ?_, ?_, ?_, ?_⟩
  · intro hf
    simp [validateApiKey, hf]
  · intro hall
    have hnone : findFirstKey db.users (hash key) db.apiKeys = none := by
      refine findFirstKey_none_of (fun r hr => ?_)
      unfold keyLookupMatch
      have : (r.keyHash == hash key) = false := by
        simpa using hall r hr
      simp [this]
    simp [validateApiKey, hnone]
  · intro hinactive
    have hnone : findFirstKey db.users (hash key) db.apiKeys = none := by
      refine findFirstKey_none_of (fun r hr => ?_)
      unfold keyLookupMatch
      by_cases hk : r.keyHash = hash key
      · cases hu : findUser db.users r.userId with
        | none => simp [hu]
        | some u => simp [hu, hinactive r hr hk u hu]
      · have : (r.keyHash == hash key) = false := by simpa using hk
        simp [this]
    simp [validateApiKey, hnone]
  · intro r hf e he hnow
    by_cases hfmt : validateApiKeyFormat key = true
    · simp [validateApiKey, hfmt, hf, he, hnow]
    · simp [validateApiKey, Bool.eq_false_iff.2 (hfmt ∘ id), hfmt]
  · intro r u hv
    unfold validateApiKey at hv
    by_cases hfmt : validateApiKeyFormat key = true
    · rw [hfmt] at hv
      simp only [Bool.not_true, Bool.false_eq_true, if_false] at hv
      cases hf : findFirstKey db.users (hash key) db.apiKeys with
      | none => rw [hf] at hv; exact absurd hv (by simp)
      | some r0 =>
        rw [hf] at hv
        obtain ⟨hmem, hmatch⟩ := findFirstKey_some hf
        obtain ⟨hhash, u0, hu0, hact0⟩ := keyLookupMatch_true hmatch
        simp only at hv
        have hexp : (match r0.expiresAt with
            | some e => decide (e ≤ now)
            | none => false) = false := by
          by_contra hcon
          rw [Bool.not_eq_false] at hcon
          rw [if_pos hcon] at hv
          exact absurd hv (by simp)
        rw [hexp] at hv
        simp only [Bool.false_eq_true, if_false] at hv
        rw [hhash, constantTimeCompare_self] at hv
        simp only [Bool.not_true, Bool.false_eq_true, if_false] at hv
        rw [hu0] at hv
        simp only [Option.some.injEq, Prod.mk.injEq] at hv
        obtain ⟨hr, hu⟩ := hv
        subst hr; subst hu
        refine ⟨hfmt, hmem, hhash, hu0, hact0, ?_⟩
        intro e he
        rw [he] at hexp
        simp only [decide_eq_false_iff_not] at hexp
        exact Nat.lt_of_not_le hexp
    · rw [Bool.not_eq_true] at hfmt
      rw [hfmt] at hv
      exact absurd hv (by simp)

/-- Closed instances discharging the hypotheses of claim_C5: the empty
string is malformed and rejected with none. -/
theorem claim_C5_witness :
    validateApiKeyFormat "" = false ∧
    validateApiKey (fun s => s) ⟨[], []⟩ 0 "" = none :=
  ⟨by decide, (claim_C5 (fun s => s) ⟨[], []⟩ 0 "").1 (by decide)⟩

/-!
Concrete fixtures used by closed witness statements.
-/

/-- A concrete active user for witness instances. -/
def uW : UserRec := ⟨"u1", "ci@example.com", none, [Role.USER], true⟩

/-- A concrete 128-character lowercase-hex random body. -/
def bodyW : String := String.mk (List.replicate 128 'a')

/-- The plaintext derived for uW from bodyW (its email local part ci
gives the prefix). -/
def ptW : String := "ci_" ++ bodyW

/-- The stored record for ptW under the identity hash. -/
def recW : ApiKeyRecord := ⟨"k1", "u1", none, ptW, 0, none, none⟩

/-- A one-key database owned by uW. -/
def dbW : Db := ⟨[uW], [recW]⟩

set_option maxRecDepth 8192 in
/-- Closed instance for claim_C4: a Bearer header carrying a valid key
authenticates and attaches the key owner. -/
theorem claim_C4_witness :
    (requireAuth (fun s => s) ⟨86400, 3600⟩ dbW Store.empty 0
        ⟨some ("Bearer " ++ ptW), none⟩).outcome = AuthOutcome.success uW true ∧
    (requireAuth (fun s => s) ⟨86400, 3600⟩ dbW Store.empty 0
        ⟨some ("Bearer " ++ ptW), none⟩).lastUsedBumped = true :=
  (claim_C4 (fun s => s) ⟨86400, 3600⟩ dbW Store.empty 0 ("Bearer " ++ ptW) none
      (by decide)).2.2.1 recW uW (by decide)

/-- C1: getSession at the creation instant returns the freshly written
record, whose lastUsedAt equals createdAt and whose exp equals
createdAt plus the TTL; a later read within the sliding threshold of
lastUsedAt returns the record and the store unchanged; a later read at
or past the threshold returns a record with lastUsedAt = now and
exp = now + TTL, strictly larger than the previous exp. -/
theorem claim_C1 (cfg : Config) (hS : 0 < cfg.sessionSlidingExtensionSeconds)
    (hST : cfg.sessionSlidingExtensionSeconds < cfg.sessionTtlSeconds) :
    (∀ (st : Store) (now : Nat) (tokenId userId : String) (roles : List Role)
       (md : ClientMeta),
       (getSession cfg (createSession cfg st now tokenId userId roles md) now
           tokenId).1 = some (newPayload cfg now userId roles md) ∧
       (newPayload cfg now userId roles md).lastUsedAt =
         (newPayload cfg now userId roles md).createdAt ∧
       (newPayload cfg now userId roles md).exp =
         (newPayload cfg now userId roles md).createdAt + cfg.sessionTtlSeconds) ∧
    (∀ (st : Store) (now2 : Nat) (tok : String) (p : SessionPayload),
       redisGet st now2 tok = some p → now2 < p.exp →
       now2 - p.lastUsedAt < cfg.sessionSlidingExtensionSeconds →
       getSession cfg st now2 tok = (some p, st)) ∧
    (∀ (st : Store) (now2 : Nat) (tok : String) (p : SessionPayload),
       redisGet st now2 tok = some p → now2 < p.exp →
       p.exp = p.lastUsedAt + cfg.sessionTtlSeconds →
       cfg.sessionSlidingExtensionSeconds ≤ now2 - p.lastUsedAt →
       ∃ p2, (getSession cfg st now2 tok).1 = some p2 ∧
         p2.lastUsedAt = now2 ∧ p2.exp = now2 + cfg.sessionTtlSeconds ∧
         p.exp < p2.exp) := by
  have hT : 0 < cfg.sessionTtlSeconds := Nat.lt_of_le_of_lt (Nat.zero_le _) hST
  refine ⟨?_, ?_, ?_⟩
  · intro st now tokenId userId roles md
    have hget : redisGet (createSession cfg st now tokenId userId roles md) now
        tokenId = some (newPayload cfg now userId roles md) := by
      unfold redisGet
      rw [sessions_createSession]
      simp [lookupSess, Nat.lt_add_of_pos_right hT]
    refine ⟨?_, rfl, rfl⟩
    unfold getSession
    rw [hget]
    have h1 : ¬ ((newPayload cfg now userId roles md).exp ≤ now) := by
      simp only [newPayload]
      omega
    have h2 : ¬ (cfg.sessionSlidingExtensionSeconds ≤
        now - (newPayload cfg now userId roles md).lastUsedAt) := by
      simp only [newPayload]
      omega
    simp [h1, h2]
  · intro st now2 tok p hget hvalid hwin
    unfold getSession
    rw [hget]
    have h1 : ¬ (p.exp ≤ now2) := Nat.not_le_of_lt hvalid
    have h2 : ¬ (cfg.sessionSlidingExtensionSeconds ≤ now2 - p.lastUsedAt) :=
      Nat.not_le_of_lt hwin
    simp [h1, h2]
  · intro st now2 tok p hget hvalid hinv hsld
    unfold getSession
    rw [hget]
    have h1 : ¬ (p.exp ≤ now2) := Nat.not_le_of_lt hvalid
    refine ⟨{ p with lastUsedAt := now2, exp := now2 + cfg.sessionTtlSeconds },
      ?_, rfl, rfl, ?_⟩
    · simp [h1, hsld]
    · simp only []
      omega

/-- Closed instance discharging the hypotheses of claim_C1: with the
default configuration, a session created at instant 0 and read back at
instant 0 returns the fresh payload. -/
theorem claim_C1_witness :
    (getSession ⟨86400, 3600⟩
        (createSession ⟨86400, 3600⟩ Store.empty 0 "t1" "u1" [Role.USER]
          ⟨none, none, none⟩) 0 "t1").1 =
      some (newPayload ⟨86400, 3600⟩ 0 "u1" [Role.USER] ⟨none, none, none⟩) ∧
    (newPayload ⟨86400, 3600⟩ 0 "u1" [Role.USER] ⟨none, none, none⟩).lastUsedAt =
      (newPayload ⟨86400, 3600⟩ 0 "u1" [Role.USER] ⟨none, none, none⟩).createdAt ∧
    (newPayload ⟨86400, 3600⟩ 0 "u1" [Role.USER] ⟨none, none, none⟩).exp =
      (newPayload ⟨86400, 3600⟩ 0 "u1" [Role.USER] ⟨none, none, none⟩).createdAt +
        (86400 : Nat) :=
  (claim_C1 ⟨86400, 3600⟩ (by decide) (by decide)).1 Store.empty 0 "t1" "u1"
    [Role.USER] ⟨none, none, none⟩

/-!
Claim C2. The store reached by creating a session at instant 0 with the
default configuration and renewing it at instant 86000 refutes the
claimed invariant: at instant 100000 the session record still exists
(its sliding renewal pushed the record TTL to 172400) but the owner
index, whose TTL was last set at creation and was not refreshed by the
renewal, has expired, so the token is no longer a member.
-/

/-- Default configuration for the counterexample. -/
def cfgC2 : Config := ⟨86400, 3600⟩

/-- Store after createSession at instant 0. -/
def stC2a : Store := createSession cfgC2 Store.empty 0 "t1" "u1" [Role.USER]
  ⟨none, none, none⟩

/-- Store after the sliding renewal read at instant 86000. -/
def stC2b : Store := (getSession cfgC2 stC2a 86000 "t1").2

/-- Counterexample to C2: at instant 100000 the session record for t1
exists in the credential store, yet t1 is not a member of the owner
index of u1 — the record outlived the index. -/
theorem claim_C2_cex :
    (redisGet stC2b 100000 "t1").isSome = true ∧
    "t1" ∉ sMembers stC2b 100000 "u1" := by
  constructor
  · rfl
  · decide

/-- Effect on the indexes of the SADD-then-EXPIRE pair used by
createSession: whatever the prior state of the owner index, afterwards
it is headed by an entry for the user whose expiry is now + ttl and
whose members contain the added token. -/
theorem sAdd_expire_indexes (st : Store) (now ttl : Nat) (u tok : String) :
    ∃ ms l2, (redisExpire (sAdd st now u tok) now ttl u).indexes =
      ⟨u, ms, some (now + ttl)⟩ :: l2 ∧ tok ∈ ms := by
  cases hli : lookupIdx st.indexes u with
  | none =>
    have hs : (sAdd st now u tok).indexes = ⟨u, [tok], none⟩ :: eraseIdx st.indexes u := by
      unfold sAdd
      rw [hli]
    refine ⟨[tok], eraseIdx ((sAdd st now u tok).indexes) u, ?_,
      List.mem_singleton_self _⟩
    unfold redisExpire
    rw [hs]
    simp [lookupIdx, idxLive]
  | some pe =>
    obtain ⟨ms, e⟩ := pe
    by_cases hlive : idxLive now e = true
    · by_cases hmem : tok ∈ ms
      · have hs : sAdd st now u tok = st := by
          unfold sAdd
          rw [hli]
          simp [hlive, hmem]
        refine ⟨ms, eraseIdx st.indexes u, ?_, hmem⟩
        unfold redisExpire
        rw [hs, hli]
        simp [hlive]
      · have hs : (sAdd st now u tok).indexes =
            ⟨u, tok :: ms, e⟩ :: eraseIdx st.indexes u := by
          unfold sAdd
          rw [hli]
          simp [hlive, hmem]
        refine ⟨tok :: ms, eraseIdx ((sAdd st now u tok).indexes) u, ?_,
          List.mem_cons_self _ _⟩
        unfold redisExpire
        rw [hs]
        simp [lookupIdx, hlive]
    · rw [Bool.not_eq_true] at hlive
      have hs : (sAdd st now u tok).indexes = ⟨u, [tok], none⟩ :: eraseIdx st.indexes u := by
        unfold sAdd
        rw [hli]
        simp [hlive]
      refine ⟨[tok], eraseIdx ((sAdd st now u tok).indexes) u, ?_,
        List.mem_singleton_self _⟩
      unfold redisExpire
      rw [hs]
      simp [lookupIdx, idxLive]

/-- Specialization of sAdd_expire_indexes to createSession. -/
theorem createSession_indexes (cfg : Config) (st : Store) (now : Nat)
    (tokenId userId : String) (roles : List Role) (md : ClientMeta) :
    ∃ ms l2, (createSession cfg st now tokenId userId roles md).indexes =
      ⟨userId, ms, some (now + cfg.sessionTtlSeconds)⟩ :: l2 ∧ tokenId ∈ ms := by
  unfold createSession
  exact sAdd_expire_indexes
    (redisSetEx st now cfg.sessionTtlSeconds tokenId (newPayload cfg now userId roles md))
    now cfg.sessionTtlSeconds userId tokenId

/-- C2 as amended: createSession writes the token into the owner index
with the same TTL as the record, so immediately after creation — and at
any instant before that index TTL lapses — membership holds; but
getSession on a valid record never touches the indexes (in particular
the sliding renewal does not refresh the index TTL), so a record kept
alive by renewal can outlive the index and the record-implies-member
invariant is only guaranteed until the index TTL set by the owner's
most recent createSession elapses. -/
theorem claim_C2_amended (cfg : Config) (st : Store) (now : Nat)
    (tokenId userId : String) (roles : List Role) (md : ClientMeta) :
    (∃ ms, lookupIdx (createSession cfg st now tokenId userId roles md).indexes
        userId = some (ms, some (now + cfg.sessionTtlSeconds)) ∧ tokenId ∈ ms) ∧
    (∀ now2, now2 < now + cfg.sessionTtlSeconds →
       tokenId ∈ sMembers (createSession cfg st now tokenId userId roles md)
         now2 userId) ∧
    (∀ (st2 : Store) (now2 : Nat) (t : String) (p : SessionPayload),
       redisGet st2 now2 t = some p → now2 < p.exp →
       ((getSession cfg st2 now2 t).2).indexes = st2.indexes) := by
  obtain ⟨ms, l2, hidx, hmem⟩ := createSession_indexes cfg st now tokenId userId roles md
  have hmain : lookupIdx (createSession cfg st now tokenId userId roles md).indexes
      userId = some (ms, some (now + cfg.sessionTtlSeconds)) := by
    rw [hidx]
    simp [lookupIdx]
  refine ⟨⟨ms, hmain, hmem⟩, ?_, ?_⟩
  · intro now2 hlt
    unfold sMembers
    rw [hmain]
    simp [idxLive, hlt, hmem]
  · intro st2 now2 t p hget hvalid
    unfold getSession
    rw [hget]
    dsimp only
    rw [if_neg (Nat.not_le_of_lt hvalid)]
    split_ifs <;> rfl

/-- Closed instance discharging the hypotheses of claim_C2_amended:
right after creation the token is a member of the owner index. -/
theorem claim_C2_amended_witness :
    "t1" ∈ sMembers stC2a 5 "u1" :=
  (claim_C2_amended cfgC2 Store.empty 0 "t1" "u1" [Role.USER]
      ⟨none, none, none⟩).2.1 5 (by decide)

/-!
Claims C7 and C9: deletion behaviour and the record-shape invariant of
every write path.
-/

theorem redisGet_deleteSession_self (st : Store) (now now2 : Nat) (tok : String) :
    redisGet (deleteSession st now tok) now2 tok = none := by
  unfold redisGet
  rw [sessions_deleteSession, lookupSess_eraseSess]

/-- An owner index that reads empty keeps reading empty at any later
instant (without intervening writes): either the key is absent, its set
is empty, or its expiry has already passed and stays passed. -/
theorem sMembers_empty_mono {st : Store} {now now2 : Nat} {u : String}
    (h : sMembers st now u = []) (hle : now ≤ now2) : sMembers st now2 u = [] := by
  unfold sMembers at h ⊢
  cases hli : lookupIdx st.indexes u with
  | none => rfl
  | some pe =>
    obtain ⟨ms, e⟩ := pe
    rw [hli] at h
    dsimp only at h ⊢
    by_cases hl2 : idxLive now2 e = true
    · have hl1 : idxLive now e = true := by
        cases e with
        | none => rfl
        | some x =>
          unfold idxLive at hl2 ⊢
          exact decide_eq_true (Nat.lt_of_le_of_lt hle (of_decide_eq_true hl2))
      rw [if_pos hl1] at h
      rw [if_pos hl2]
      exact h
    · rw [if_neg hl2]

/-- C7: after deleteSession the token is unfindable via getSession and
absent from every listUserSessions answer, and deleteAllUserSessions
followed by listUserSessions for the same user returns the empty
sequence (also at any later instant). -/
theorem claim_C7 (cfg : Config) :
    (∀ (st : Store) (now now2 : Nat) (tok : String),
       (getSession cfg (deleteSession st now tok) now2 tok).1 = none) ∧
    (∀ (st : Store) (now now2 : Nat) (tok u : String) (m : SessionMetadata),
       m ∈ listUserSessions (deleteSession st now tok) now2 u → m.tokenId ≠ tok) ∧
    (∀ (st : Store) (now now2 : Nat) (u : String), now ≤ now2 →
       listUserSessions (deleteAllUserSessions st now u) now2 u = []) := by
  refine ⟨?_, ?_, ?_⟩
  · intro st now now2 tok
    unfold getSession
    rw [redisGet_deleteSession_self]
  · intro st now now2 tok u m hm
    unfold listUserSessions at hm
    rw [mem_sortByLastUsedDesc] at hm
    obtain ⟨t, _, hmt⟩ := List.mem_filterMap.mp hm
    cases hg : redisGet (deleteSession st now tok) now2 t with
    | none =>
      rw [hg] at hmt
      simp at hmt
    | some p =>
      rw [hg] at hmt
      simp only [Option.map_some', Option.some.injEq] at hmt
      intro hcon
      rw [← hmt] at hcon
      simp only [mkMeta] at hcon
      rw [hcon] at hg
      rw [redisGet_deleteSession_self] at hg
      exact absurd hg (by simp)
  · intro st now now2 u hle
    unfold deleteAllUserSessions
    by_cases htoks : sMembers st now u = []
    · rw [if_pos htoks]
      unfold listUserSessions
      rw [sMembers_empty_mono htoks hle]
      rfl
    · rw [if_neg htoks]
      unfold listUserSessions
      have hempty : sMembers
          (redisDelIdx ((sMembers st now u).foldl (fun s t => redisDelSess s t) st) u)
          now2 u = [] := by
        unfold sMembers redisDelIdx
        simp [lookupIdx_eraseIdx]
      rw [hempty]
      rfl

/-- Closed instance discharging the hypothesis of claim_C7: deleting
everything for u1 right after two creations leaves an empty listing. -/
theorem claim_C7_witness :
    listUserSessions
      (deleteAllUserSessions
        (createSession ⟨86400, 3600⟩
          (createSession ⟨86400, 3600⟩ Store.empty 0 "t1" "u1" [Role.USER]
            ⟨none, none, none⟩) 10 "t2" "u1" [Role.USER] ⟨none, none, none⟩)
        20 "u1") 20 "u1" = [] :=
  (claim_C7 ⟨86400, 3600⟩).2.2
    (createSession ⟨86400, 3600⟩
      (createSession ⟨86400, 3600⟩ Store.empty 0 "t1" "u1" [Role.USER]
        ⟨none, none, none⟩) 10 "t2" "u1" [Role.USER] ⟨none, none, none⟩)
    20 20 "u1" (Nat.le_refl 20)

/-- Case analysis of the store returned by getSession: unchanged,
the deletion of an expired record, or the sliding-renewal rewrite. -/
theorem sessions_getSession (cfg : Config) (st : Store) (now : Nat) (tok : String) :
    (getSession cfg st now tok).2 = st ∨
    (getSession cfg st now tok).2 = deleteSession st now tok ∨
    ∃ p, redisGet st now tok = some p ∧ ¬ p.exp ≤ now ∧
      cfg.sessionSlidingExtensionSeconds ≤ now - p.lastUsedAt ∧
      (getSession cfg st now tok).2 =
        redisSetEx st now cfg.sessionTtlSeconds tok
          { p with lastUsedAt := now, exp := now + cfg.sessionTtlSeconds } := by
  unfold getSession
  cases hget : redisGet st now tok with
  | none => left; rfl
  | some p =>
    dsimp only
    by_cases hexp : p.exp ≤ now
    · right; left
      rw [if_pos hexp]
    · by_cases hsld : cfg.sessionSlidingExtensionSeconds ≤ now - p.lastUsedAt
      · right; right
        exact ⟨p, rfl, hexp, hsld, by rw [if_neg hexp, if_pos hsld]⟩
      · left
        rw [if_neg hexp, if_neg hsld]

/-- The store states reachable from the empty store through the session
service operations. -/
inductive Reach (cfg : Config) : Store → Prop where
  | empty : Reach cfg Store.empty
  | create (st : Store) (now : Nat) (tokenId userId : String) (roles : List Role)
      (md : ClientMeta) : Reach cfg st →
      Reach cfg (createSession cfg st now tokenId userId roles md)
  | read (st : Store) (now : Nat) (tokenId : String) : Reach cfg st →
      Reach cfg (getSession cfg st now tokenId).2
  | del (st : Store) (now : Nat) (tokenId : String) : Reach cfg st →
      Reach cfg (deleteSession st now tokenId)
  | delAll (st : Store) (now : Nat) (userId : String) : Reach cfg st →
      Reach cfg (deleteAllUserSessions st now userId)

/-- The record-shape invariant: every stored session satisfies
exp = lastUsedAt + TTL and createdAt at most lastUsedAt, and the
absolute store expiry coincides with exp. Since both write paths set
lastUsedAt to the write instant, storeExpiry = lastUsedAt + TTL says
exactly that the TTL handed to SETEX is SESSION_TTL_SECONDS. -/
def SessInvariant (cfg : Config) (st : Store) : Prop :=
  ∀ e ∈ st.sessions, e.storeExpiry = e.payload.exp ∧
    e.payload.exp = e.payload.lastUsedAt + cfg.sessionTtlSeconds ∧
    e.payload.createdAt ≤ e.payload.lastUsedAt

/-- C9: every session record ever written — by createSession or by the
sliding-renewal rewrite inside getSession — satisfies
exp = lastUsedAt + SESSION_TTL_SECONDS and lastUsedAt at least
createdAt, and the store TTL supplied with the write equals
SESSION_TTL_SECONDS (storeExpiry = exp = write instant + TTL); both
write paths preserve the invariant, as do the deletion paths. -/
theorem claim_C9 (cfg : Config) (hS : 0 < cfg.sessionSlidingExtensionSeconds)
    {st : Store} (hr : Reach cfg st) : SessInvariant cfg st := by
  induction hr with
  | empty =>
    intro e he
    simp [Store.empty] at he
  | create st now tok uid roles md hr ih =>
    intro e he
    rw [sessions_createSession] at he
    rcases List.mem_cons.mp he with h | h
    · subst h
      exact ⟨rfl, rfl, Nat.le_refl _⟩
    · exact ih e (mem_eraseSess h)
  | read st now tok hr ih =>
    rcases sessions_getSession cfg st now tok with h | h | ⟨p, hget, hexp, hsld, h⟩
    · rw [h]; exact ih
    · rw [h]
      intro e he
      rw [sessions_deleteSession] at he
      exact ih e (mem_eraseSess he)
    · rw [h]
      intro e he
      obtain ⟨x, hls, _⟩ := redisGet_some hget
      obtain ⟨_, hinv2, hinv3⟩ := ih _ (lookupSess_mem hls)
      simp only [redisSetEx] at he
      rcases List.mem_cons.mp he with h2 | h2
      · subst h2
        refine ⟨rfl, rfl, ?_⟩
        have hlu : p.lastUsedAt < now := by omega
        exact Nat.le_of_lt (Nat.lt_of_le_of_lt hinv3 hlu)
      · exact ih e (mem_eraseSess h2)
  | del st now tok hr ih =>
    intro e he
    rw [sessions_deleteSession] at he
    exact ih e (mem_eraseSess he)
  | delAll st now uid hr ih =>
    intro e he
    unfold deleteAllUserSessions at he
    by_cases h0 : sMembers st now uid = []
    · rw [if_pos h0] at he
      exact ih e he
    · rw [if_neg h0] at he
      have : e ∈ ((sMembers st now uid).foldl (fun s t => redisDelSess s t) st).sessions := he
      exact ih e (sessions_foldl_delSess _ _ this)

/-- Closed instance discharging the hypotheses of claim_C9: the store
reached by one createSession under the default configuration satisfies
the invariant. -/
theorem claim_C9_witness :
    0 < (3600 : Nat) ∧
    SessInvariant ⟨86400, 3600⟩
      (createSession ⟨86400, 3600⟩ Store.empty 0 "t1" "u1" [Role.USER]
        ⟨none, none, none⟩) :=
  ⟨by decide,
   claim_C9 ⟨86400, 3600⟩ (by decide)
     (Reach.create Store.empty 0 "t1" "u1" [Role.USER] ⟨none, none, none⟩
       Reach.empty)⟩

/-!
Claim C3: the API-key round trip.
-/

theorem extractUsername_all (email : String) :
    (extractUsername email).data.all isLowerAlpha = true := by
  unfold extractUsername
  dsimp only
  rw [List.all_eq_true]
  intro c hc
  exact (List.mem_filter.mp (List.take_subset 12 _ hc)).2

theorem extractUsername_len (email : String) :
    (extractUsername email).data.length ≤ 12 := by
  unfold extractUsername
  dsimp only
  rw [List.length_take]
  exact Nat.min_le_left _ _

theorem isLowerAlpha_ne_underscore {c : Char} (h : isLowerAlpha c = true) : c ≠ '_' := by
  intro hc
  subst hc
  exact absurd h (by decide)

theorem isHexLower_ne_underscore {c : Char} (h : isHexLower c = true) : c ≠ '_' := by
  intro hc
  subst hc
  exact absurd h (by decide)

theorem contains_underscore_false {l : List Char} (h : l.all isHexLower = true) :
    l.contains '_' = false := by
  rw [show l.contains '_' = decide ('_' ∈ l) from List.elem_eq_mem _ _]
  apply decide_eq_false
  intro hmem
  exact isHexLower_ne_underscore (List.all_eq_true.mp h _ hmem) rfl

theorem takeWhile_append_all {α : Type} (p : α → Bool) (l r : List α) (x : α)
    (hl : ∀ c ∈ l, p c = true) (hx : p x = false) :
    (l ++ x :: r).takeWhile p = l ∧ (l ++ x :: r).dropWhile p = x :: r := by
  induction l with
  | nil =>
    constructor
    · simp [List.takeWhile_cons, hx]
    · simp [List.dropWhile_cons, hx]
  | cons c cs ih =>
    have hc := hl c (List.mem_cons_self _ _)
    obtain ⟨h1, h2⟩ := ih (fun d hd => hl d (List.mem_cons_of_mem _ hd))
    constructor
    · simp [List.takeWhile_cons, hc, h1]
    · simp [List.dropWhile_cons, hc, h2]

/-- The plaintext built by generateApiKey from a lowercase username of
at most 12 letters and a 128-character lowercase-hex body always passes
the API key format check. -/
theorem formatOk_generate (username body : String)
    (hu1 : username.data.all isLowerAlpha = true)
    (hu2 : username.data.length ≤ 12)
    (hb1 : body.data.length = 128) (hb2 : body.data.all isHexLower = true) :
    validateApiKeyFormat (generateApiKey username body) = true := by
  unfold generateApiKey
  by_cases h0 : 0 < username.length
  · rw [if_pos h0]
    unfold validateApiKeyFormat formatOkChars
    have hdata : (username ++ "_" ++ body).data =
        (username.data ++ ['_']) ++ body.data := by
      rw [String.data_append, String.data_append]
    rw [hdata]
    have hsplit := takeWhile_append_all (fun c => decide (c ≠ '_'))
      username.data body.data '_'
      (fun c hc => by
        exact decide_eq_true (isLowerAlpha_ne_underscore (List.all_eq_true.mp hu1 c hc)))
      (by decide)
    have hassoc : (username.data ++ ['_']) ++ body.data =
        username.data ++ '_' :: body.data := by
      simp
    rw [hassoc]
    have hcont : (username.data ++ '_' :: body.data).contains '_' = true := by
      rw [show (username.data ++ '_' :: body.data).contains '_' =
          decide ('_' ∈ username.data ++ '_' :: body.data) from List.elem_eq_mem _ _]
      exact decide_eq_true (by simp)
    rw [hcont, if_pos rfl]
    dsimp only
    rw [hsplit.1, hsplit.2]
    have hlen : 1 ≤ username.data.length := h0
    simp only [hsplit.1, hsplit.2, List.drop_succ_cons, List.drop_zero, hb1, hu1,
      Bool.and_true, Bool.true_and, beq_self_eq_true, hb2]
    simp only [decide_eq_true_eq, Bool.and_eq_true]
    exact ⟨h0, hu2⟩
  · rw [if_neg h0]
    unfold validateApiKeyFormat formatOkChars
    rw [contains_underscore_false hb2, if_neg (by simp)]
    simp [hb1, hb2]

/-- validateApiKey accepts the unique record of a one-key table when
the format check passes, the stored hash is the hash of the candidate,
the owner is active and the key is unexpired. -/
theorem validateApiKey_single (hash : String → String) (users : List UserRec)
    (rec : ApiKeyRecord) (u : UserRec) (now2 : Nat) (pt : String)
    (hfmt : validateApiKeyFormat pt = true)
    (hhash : rec.keyHash = hash pt)
    (hu : findUser users rec.userId = some u) (hact : u.isActive = true)
    (hexp : ∀ e, rec.expiresAt = some e → now2 < e) :
    validateApiKey hash ⟨users, [rec]⟩ now2 pt = some (rec, u) := by
  unfold validateApiKey
  rw [hfmt]
  simp only [Bool.not_true, Bool.false_eq_true, if_false]
  have hmatch : keyLookupMatch users (hash pt) rec = true := by
    unfold keyLookupMatch
    rw [hu]
    simp [hhash, hact]
  have hfind : findFirstKey users (hash pt) [rec] = some rec := by
    unfold findFirstKey
    rw [if_pos hmatch]
  rw [hfind]
  dsimp only
  have hexpired : (match rec.expiresAt with
      | some e => decide (e ≤ now2)
      | none => false) = false := by
    cases he : rec.expiresAt with
    | none => rfl
    | some e => exact decide_eq_false (Nat.not_le_of_lt (hexp e he))
  rw [hexpired]
  simp only [Bool.false_eq_true, if_false]
  rw [hhash, constantTimeCompare_self]
  simp only [Bool.not_true, Bool.false_eq_true, if_false]
  rw [hu]

/-- validateApiKey rejects any candidate whose hash differs from the
stored hash of the unique record of a one-key table. -/
theorem validateApiKey_single_none (hash : String → String) (users : List UserRec)
    (rec : ApiKeyRecord) (now2 : Nat) (pt2 : String)
    (hne : rec.keyHash ≠ hash pt2) :
    validateApiKey hash ⟨users, [rec]⟩ now2 pt2 = none := by
  unfold validateApiKey
  by_cases hfmt : validateApiKeyFormat pt2 = true
  · rw [hfmt]
    simp only [Bool.not_true, Bool.false_eq_true, if_false]
    have hfind : findFirstKey users (hash pt2) [rec] = none := by
      apply findFirstKey_none_of
      intro r hr
      rw [List.mem_singleton] at hr
      unfold keyLookupMatch
      have hb : (r.keyHash == hash pt2) = false := by
        rw [hr]
        simpa using hne
      simp [hb]
    rw [hfind]
  · rw [Bool.not_eq_true] at hfmt
    rw [hfmt]
    simp

/-- Mutating one body character yields a different plaintext. -/
theorem generateApiKey_ne {username body : String} {i : Nat} {c : Char}
    (hi : i < body.data.length) (hc : c ≠ body.data.get ⟨i, hi⟩) :
    generateApiKey username (String.mk (body.data.set i c)) ≠
      generateApiKey username body := by
  intro heq
  have hset : body.data.set i c = body.data := by
    unfold generateApiKey at heq
    by_cases h0 : 0 < username.length
    · rw [if_pos h0, if_pos h0] at heq
      have hdata := congrArg String.data heq
      simp only [String.data_append] at hdata
      exact List.append_cancel_left hdata
    · rw [if_neg h0, if_neg h0] at heq
      exact congrArg String.data heq
  have h1 : (body.data.set i c)[i]? = some c :=
    List.getElem?_set_eq_of_lt c hi
  rw [hset] at h1
  rw [List.getElem?_eq_getElem hi] at h1
  exact hc (by injection h1 with h2; rw [← h2]; rfl)

/-- C3: for an existing active user, createApiKey returns a plaintext
matching the documented format which validateApiKey accepts whenever
the key is unexpired (acceptance is repeatable since validateApiKey is
a pure function of the store and instant), returning the owning user as
principal (whose id is the owning userId); and, for an injective hash,
changing any one of the 128 hex body characters to any other character
makes validateApiKey return none. The database starts empty so the
created record is the only key, matching the round-trip scenario of the
spec. -/
theorem claim_C3 (hash : String → String) (users : List UserRec) (userId : String)
    (u : UserRec) (name : Option String) (expiresAt : Option Nat)
    (body newId : String) (now : Nat) (ck : CreateKeyOk)
    (hu : findUser users userId = some u) (hact : u.isActive = true)
    (hb1 : body.data.length = 128) (hb2 : body.data.all isHexLower = true)
    (hck : createApiKey hash ⟨users, []⟩ now userId name expiresAt body newId =
      Except.ok ck) :
    validateApiKeyFormat ck.plaintext = true ∧
    u.id = userId ∧
    (∀ now2, (∀ e, expiresAt = some e → now2 < e) →
       validateApiKey hash ck.db now2 ck.plaintext = some (ck.record, u)) ∧
    ((∀ a b : String, hash a = hash b → a = b) →
      ∀ (i : Nat) (hi : i < body.data.length) (c : Char),
        c ≠ body.data.get ⟨i, hi⟩ →
        ∀ now2, validateApiKey hash ck.db now2
          (generateApiKey (extractUsername u.email) (String.mk (body.data.set i c))) =
          none) := by
  unfold createApiKey at hck
  rw [hu] at hck
  dsimp only at hck
  rw [hact] at hck
  simp only [Bool.not_true, Bool.false_eq_true, if_false, Except.ok.injEq] at hck
  subst hck
  dsimp only
  simp only [List.nil_append]
  have hfmt : validateApiKeyFormat
      (generateApiKey (extractUsername u.email) body) = true :=
    formatOk_generate _ _ (extractUsername_all u.email) (extractUsername_len u.email)
      hb1 hb2
  refine ⟨hfmt, findUser_id hu, ?_, ?_⟩
  · intro now2 hexp
    exact validateApiKey_single hash users _ u now2 _ hfmt rfl hu hact
      (fun e he => hexp e he)
  · intro hinj i hi c hc now2
    apply validateApiKey_single_none
    intro heq
    exact generateApiKey_ne hi hc (hinj _ _ heq.symm)

-- The Except values compared in the witness below need decidable
-- equality, which core does not derive for Except.
deriving instance DecidableEq for Except

/-- The successful createApiKey outcome for uW with random body bodyW
and fresh row id k1 at instant 0, under the identity hash. -/
def ckW : CreateKeyOk := ⟨recW, ptW, dbW⟩

set_option maxRecDepth 8192 in
/-- Closed instance discharging the hypotheses of claim_C3: the
concrete creation for uW round-trips through validateApiKey. -/
theorem claim_C3_witness :
    validateApiKeyFormat ptW = true ∧ uW.id = "u1" ∧
    validateApiKey (fun s => s) dbW 5 ptW = some (recW, uW) := by
  have h := claim_C3 (fun s => s) [uW] "u1" uW none none bodyW "k1" 0 ckW
    (by decide) (by decide) (by decide) (by decide) (by decide)
  exact ⟨h.1, h.2.1, h.2.2.1 5 (fun e he => nomatch he)⟩

end BackendAuth
